import Mathlib

/-!
# Verification of the cfg-expr expression module

A shallow embedding of the configuration-predicate expression engine in
src/expr/mod.rs: the postfix expression representation, the stack-machine
evaluator parameterised by a pluggable logic algebra, the predicate iterator,
and the two target matchers.

Conventions of the embedding:
* Rust machine integers are modelled as Nat (no arithmetic overflow occurs
  in the embedded code paths).
* Fallible operations (the unwrap calls in eval and to_pred) are modelled
  with Option: a none result marks the panic branch.
* Borrowed string slices are modelled as String values; slicing a span out
  of the original text is take/drop on the character list.
* The parser, lexer, targets table and the target-lexicon collaborator are
  not part of the given source; where a claim needs them they are modelled
  from the specification and marked as such in their doc comments.
-/

namespace CfgExpr

/-- Half-open span of offsets into the original text, from Rust's
std::ops::Range of usize. The Rust field named end is called stop here
because end is a Lean keyword. -/
structure Span where
  start : Nat
  stop : Nat
deriving DecidableEq, Repr

/-- Extract the substring denoted by a span, modelling the Rust indexing
expression on the original string (offsets are modelled as character
offsets). -/
def sliceSpan (s : String) (r : Span) : String :=
  ⟨(s.toList.drop r.start).take (r.stop - r.start)⟩

/-- Func from src/expr/mod.rs: a predicate-combining function marker.
All and Any carry the number of predicates inside them. -/
inductive Func where
  | Not
  | All (n : Nat)
  | Any (n : Nat)
deriving DecidableEq, Repr

/-! ## The targets data model

Modelled from the spec (Platform Description, §3): the targets module is not
in the given source. Arch, Env, Os and Vendor are string-backed newtypes
(tuple structs whose field 0 is accessed in the source); Endian and Family
are small closed enums. -/

/-- Modelled from the spec: string-backed architecture name. -/
structure Arch where
  s : String
deriving DecidableEq, Repr

/-- Modelled from the spec: endianness of a target, one of little or big. -/
inductive Endian where
  | little
  | big
deriving DecidableEq, Repr

/-- Modelled from the spec: string-backed environment name. -/
structure Env where
  s : String
deriving DecidableEq, Repr

/-- Modelled from the spec: target family, unix or windows. -/
inductive Family where
  | unix
  | windows
deriving DecidableEq, Repr

/-- Modelled from the spec: string-backed operating-system name. -/
structure Os where
  s : String
deriving DecidableEq, Repr

/-- Modelled from the spec: string-backed vendor name. -/
structure Vendor where
  s : String
deriving DecidableEq, Repr

/-- Modelled from the spec: a concrete target description with architecture,
endianness, pointer width, and optional environment, family, OS and vendor
fields. -/
structure TargetInfo where
  arch : Arch
  endian : Endian
  env : Option Env
  family : Option Family
  os : Option Os
  pointer_width : Nat
  vendor : Option Vendor
deriving DecidableEq, Repr

/-- TargetPredicate from src/expr/mod.rs: all predicates that pertain to a
target, except for target_feature. -/
inductive TargetPredicate where
  | Arch (a : Arch)
  | Endian (end_ : Endian)
  | Env (env : Env)
  | Family (fam : Family)
  | Os (os : Os)
  | PointerWidth (w : Nat)
  | Vendor (ven : Vendor)
deriving DecidableEq, Repr

/-- TargetPredicate::matches from src/expr/mod.rs: returns true if the
predicate matches the specified target. The environment is allowed to be an
empty string. -/
def TargetPredicate.matches (self : TargetPredicate) (target : TargetInfo) : Bool :=
  match self with
  | .Arch a => a == target.arch
  | .Endian end_ => end_ == target.endian
  | .Env env =>
    match target.env with
    | some e => env == e
    | none => env.s == ""
  | .Family fam => some fam == target.family
  | .Os os => some os == target.os
  | .PointerWidth w => w == target.pointer_width
  | .Vendor ven => some ven == target.vendor

/-! ## The alternate triple representation (target-lexicon collaborator)

Modelled from the spec (§6): the alternate triple library is an external
collaborator that supplies architecture/OS/environment/vendor parsing from
strings and pointer-width/endianness queries by architecture. Its
enumerations are opaque, finite, case-sensitive string-backed value sets;
the model below carries the variants the source names in its match arms
plus representative further variants, with the canonical name strings the
parse functions recognise. Parse failure is modelled as none. -/

namespace Lexicon

/-- Modelled from the spec: the sub-variants of the 32-bit x86 architecture
family in the alternate representation. -/
inductive X86Arch32 where
  | I386
  | I586
  | I686
deriving DecidableEq, Repr

/-- Modelled from the spec: alternate-representation architectures. Unknown
is an architecture for which the width and endianness queries fail. -/
inductive Architecture where
  | Unknown
  | Aarch64
  | Wasm32
  | X86_32 (sub : X86Arch32)
  | X86_64
deriving DecidableEq, Repr

/-- Modelled from the spec: parsing an architecture name; unrecognized names
fail. The bare name x86 is not an alternate-representation name. -/
def parseArchitecture (s : String) : Option Architecture :=
  if s == "unknown" then some .Unknown
  else if s == "aarch64" then some .Aarch64
  else if s == "wasm32" then some .Wasm32
  else if s == "i386" then some (.X86_32 .I386)
  else if s == "i586" then some (.X86_32 .I586)
  else if s == "i686" then some (.X86_32 .I686)
  else if s == "x86_64" then some .X86_64
  else none

/-- Modelled from the spec: byte order as reported by the alternate
representation. -/
inductive Endianness where
  | Little
  | Big
deriving DecidableEq, Repr

/-- Modelled from the spec: the endianness query by architecture; fails
(none) for the unknown architecture. -/
def Architecture.endianness : Architecture → Option Endianness
  | .Unknown => none
  | .Aarch64 => some .Little
  | .Wasm32 => some .Little
  | .X86_32 _ => some .Little
  | .X86_64 => some .Little

/-- Modelled from the spec: the pointer-width query by architecture, in
bits; fails (none) for the unknown architecture. -/
def Architecture.pointer_width : Architecture → Option Nat
  | .Unknown => none
  | .Aarch64 => some 64
  | .Wasm32 => some 32
  | .X86_32 _ => some 32
  | .X86_64 => some 64

/-- Modelled from the spec: alternate-representation environments. The
source's match arms name Gnu, Gnuabi64, Gnueabi, Gnuspe, Gnux32, Android
and Unknown; Musl and Msvc stand for the remaining non-gnu variants. -/
inductive Environment where
  | Unknown
  | Android
  | Gnu
  | Gnuabi64
  | Gnueabi
  | Gnuspe
  | Gnux32
  | Musl
  | Msvc
deriving DecidableEq, Repr

/-- Modelled from the spec: the canonical name string of each
alternate-representation environment variant. -/
def Environment.name : Environment → String
  | .Unknown => "unknown"
  | .Android => "android"
  | .Gnu => "gnu"
  | .Gnuabi64 => "gnuabi64"
  | .Gnueabi => "gnueabi"
  | .Gnuspe => "gnuspe"
  | .Gnux32 => "gnux32"
  | .Musl => "musl"
  | .Msvc => "msvc"

/-- Modelled from the spec: parsing an environment name; unrecognized names
fail. -/
def parseEnvironment (s : String) : Option Environment :=
  if s == "android" then some .Android
  else if s == "gnu" then some .Gnu
  else if s == "gnuabi64" then some .Gnuabi64
  else if s == "gnueabi" then some .Gnueabi
  else if s == "gnuspe" then some .Gnuspe
  else if s == "gnux32" then some .Gnux32
  else if s == "musl" then some .Musl
  else if s == "msvc" then some .Msvc
  else none

/-- Modelled from the spec: alternate-representation operating systems (the
variants named in the source's family-bucketing table). The version payload
of MacOSX is elided; None_ is the alternate library's explicit "no OS"
variant. -/
inductive OperatingSystem where
  | Unknown
  | AmdHsa
  | Bitrig
  | Cloudabi
  | Cuda
  | Darwin
  | Dragonfly
  | Emscripten
  | Freebsd
  | Fuchsia
  | Haiku
  | Hermit
  | Ios
  | L4re
  | Linux
  | MacOSX
  | Nebulet
  | Netbsd
  | None_
  | Openbsd
  | Redox
  | Solaris
  | Uefi
  | VxWorks
  | Wasi
  | Windows
deriving DecidableEq, Repr

/-- Modelled from the spec: parsing an operating-system name; unrecognized
names fail. In particular macos and android are rustc names, not
alternate-representation names, so both fail to parse. -/
def parseOperatingSystem (s : String) : Option OperatingSystem :=
  if s == "unknown" then some .Unknown
  else if s == "amdhsa" then some .AmdHsa
  else if s == "bitrig" then some .Bitrig
  else if s == "cloudabi" then some .Cloudabi
  else if s == "cuda" then some .Cuda
  else if s == "darwin" then some .Darwin
  else if s == "dragonfly" then some .Dragonfly
  else if s == "emscripten" then some .Emscripten
  else if s == "freebsd" then some .Freebsd
  else if s == "fuchsia" then some .Fuchsia
  else if s == "haiku" then some .Haiku
  else if s == "hermit" then some .Hermit
  else if s == "ios" then some .Ios
  else if s == "l4re" then some .L4re
  else if s == "linux" then some .Linux
  else if s == "nebulet" then some .Nebulet
  else if s == "netbsd" then some .Netbsd
  else if s == "none" then some .None_
  else if s == "openbsd" then some .Openbsd
  else if s == "redox" then some .Redox
  else if s == "solaris" then some .Solaris
  else if s == "uefi" then some .Uefi
  else if s == "vxworks" then some .VxWorks
  else if s == "wasi" then some .Wasi
  else if s == "windows" then some .Windows
  else none

/-- Modelled from the spec: alternate-representation vendors. -/
inductive Vendor where
  | Unknown
  | Apple
  | Pc
  | Sun
deriving DecidableEq, Repr

/-- Modelled from the spec: parsing a vendor name; unrecognized names
fail. -/
def parseVendor (s : String) : Option Vendor :=
  if s == "unknown" then some .Unknown
  else if s == "apple" then some .Apple
  else if s == "pc" then some .Pc
  else if s == "sun" then some .Sun
  else none

/-- Modelled from the spec: an alternate-representation target triple
(architecture, vendor, operating system, environment; the binary-format
field is elided as no embedded code reads it). The triple's pointer-width
query delegates to its architecture. -/
structure Triple where
  architecture : Architecture
  vendor : Vendor
  operating_system : OperatingSystem
  environment : Environment
deriving DecidableEq, Repr

/-- Modelled from the spec: the triple's pointer-width query delegates to
the architecture's. -/
def Triple.pointer_width (self : Triple) : Option Nat :=
  self.architecture.pointer_width

end Lexicon

/-- TargetPredicate::matches_target from src/expr/mod.rs (the
feature-gated matcher against the alternate triple representation). Each
arm is translated directly; Err results of the collaborator's parse and
query calls are the none cases. -/
def TargetPredicate.matches_target (self : TargetPredicate)
    (target : Lexicon.Triple) : Bool :=
  match self with
  | .Arch arch =>
    if arch.s == "x86" then
      match target.architecture with
      | .X86_32 _ => true
      | _ => false
    else
      match Lexicon.parseArchitecture arch.s with
      | some a => target.architecture == a
      | none => false
  | .Endian end_ =>
    match target.architecture.endianness with
    | some endian =>
      match end_, endian with
      | Endian.little, .Little => true
      | Endian.big, .Big => true
      | _, _ => false
    | none => false
  | .Env env =>
    if env.s.isEmpty then
      target.environment == .Unknown
    else
      match Lexicon.parseEnvironment env.s with
      | some e =>
        -- Rustc shortens multiple "gnu*" environments to just "gnu"
        if env.s == "gnu" then
          match target.environment with
          | .Gnu | .Gnuabi64 | .Gnueabi | .Gnuspe | .Gnux32 => true
          | _ => false
        else
          target.environment == e
      | none => false
  | .Family fam =>
    some fam ==
      (match target.operating_system with
       | .Unknown | .AmdHsa | .Bitrig | .Cloudabi | .Cuda | .Hermit
       | .Nebulet | .None_ | .Uefi | .Wasi => none
       | .Darwin | .Dragonfly | .Emscripten | .Freebsd | .Fuchsia
       | .Haiku | .Ios | .L4re | .Linux | .MacOSX | .Netbsd | .Openbsd
       | .Redox | .Solaris | .VxWorks => some Family.unix
       | .Windows => some Family.windows)
  | .Os os =>
    match Lexicon.parseOperatingSystem os.s with
    | some o => target.operating_system == o
    | none =>
      -- Handle special case for darwin/macos, where the triple is
      -- "darwin", but rustc identifies the OS as "macos"
      if os.s == "macos" && target.operating_system == .Darwin then
        true
      else
        -- For android, the os is still linux, but the environment is android
        os.s == "android" && target.operating_system == .Linux
          && target.environment == .Android
  | .Vendor ven =>
    match Lexicon.parseVendor ven.s with
    | some v => target.vendor == v
    | none => false
  | .PointerWidth pw =>
    -- The gnux32 environment is a special case, where it has an
    -- x86_64 architecture, but a 32-bit pointer width
    if target.environment != .Gnux32 then
      match target.pointer_width with
      | some bits => pw == bits
      | none => false
    else
      pw == 32

/-! ## The expression data model -/

/-- Which from src/expr/mod.rs: the tag of a target predicate, with inline
values for the eagerly decoded attributes and no payload for the span-based
ones. -/
inductive Which where
  | Arch
  | Endian (end_ : Endian)
  | Env
  | Family (fam : Family)
  | Os
  | PointerWidth (w : Nat)
  | Vendor
deriving DecidableEq, Repr

/-- InnerTarget from src/expr/mod.rs: a target-predicate tag plus the
optional source span of its value. -/
structure InnerTarget where
  which : Which
  span : Option Span
deriving DecidableEq, Repr

/-- Predicate from src/expr/mod.rs: a single resolved predicate in a cfg()
expression, with string slices resolved against the original text. -/
inductive Predicate where
  | Target (tp : TargetPredicate)
  | Test
  | DebugAssertions
  | ProcMacro
  | Feature (s : String)
  | TargetFeature (s : String)
  | Flag (s : String)
  | KeyValue (key : String) (val : String)
deriving DecidableEq, Repr

/-- InnerPredicate from src/expr/mod.rs: the span-based stored form of a
predicate. -/
inductive InnerPredicate where
  | Target (it : InnerTarget)
  | Test
  | DebugAssertions
  | ProcMacro
  | Feature (rng : Span)
  | TargetFeature (rng : Span)
  | Other (identifier : Span) (value : Option Span)
deriving DecidableEq, Repr

/-- InnerPredicate::to_pred from src/expr/mod.rs: resolve the stored spans
against the original text. The source unwraps the span of an Arch, Os,
Vendor or Env target predicate; a missing span there is the panic branch,
modelled as none. -/
def InnerPredicate.to_pred (self : InnerPredicate) (s : String) : Option Predicate :=
  match self with
  | .Target it =>
    match it.which with
    | .Arch => it.span.map fun rng => .Target (.Arch ⟨sliceSpan s rng⟩)
    | .Os => it.span.map fun rng => .Target (.Os ⟨sliceSpan s rng⟩)
    | .Vendor => it.span.map fun rng => .Target (.Vendor ⟨sliceSpan s rng⟩)
    | .Env => it.span.map fun rng => .Target (.Env ⟨sliceSpan s rng⟩)
    | .Endian end_ => some (.Target (.Endian end_))
    | .Family fam => some (.Target (.Family fam))
    | .PointerWidth pw => some (.Target (.PointerWidth pw))
  | .Test => some .Test
  | .DebugAssertions => some .DebugAssertions
  | .ProcMacro => some .ProcMacro
  | .Feature rng => some (.Feature (sliceSpan s rng))
  | .TargetFeature rng => some (.TargetFeature (sliceSpan s rng))
  | .Other identifier value =>
    match value with
    | some vs => some (.KeyValue (sliceSpan s identifier) (sliceSpan s vs))
    | none => some (.Flag (sliceSpan s identifier))

/-- ExprNode from src/expr/mod.rs: one node of the postfix sequence. -/
inductive ExprNode where
  | Fn (func : Func)
  | Predicate (pred : InnerPredicate)
deriving DecidableEq, Repr

/-- Expression from src/expr/mod.rs: a parsed cfg() expression, the postfix
node sequence plus the original string the spans reference. -/
structure Expression where
  expr : List ExprNode
  original : String
deriving DecidableEq, Repr

/-- Expression::predicates from src/expr/mod.rs: an iterator over each
predicate in the expression (here, the list it produces). Combinator nodes
map to none and are dropped by filterMap; to_pred's panic branch is also a
none of the same composition. -/
def Expression.predicates (self : Expression) : List Predicate :=
  self.expr.filterMap fun item =>
    match item with
    | .Predicate pred => pred.to_pred self.original
    | _ => none

/-! ## The Logic trait and the evaluator -/

/-- Logic from src/expr/mod.rs: a propositional logic used to evaluate
Expression instances. -/
class Logic (T : Type) where
  top : T
  bottom : T
  and : T → T → T
  or : T → T → T
  not : T → T

/-- The boolean Logic impl from src/expr/mod.rs. -/
instance : Logic Bool where
  top := true
  bottom := false
  and := fun a b => a && b
  or := fun a b => a || b
  not := fun a => !a

/-- The three-valued Logic impl for Option Bool from src/expr/mod.rs, where
none stands for the value being unknown, with the match arms in source
order. -/
instance : Logic (Option Bool) where
  top := some true
  bottom := some false
  and := fun a b =>
    match a, b with
    -- If either is false, the expression is false.
    | some false, _ => some false
    | _, some false => some false
    -- If both are true, the expression is true.
    | some true, some true => some true
    -- One or both are unknown -- the result is unknown.
    | _, _ => none
  or := fun a b =>
    match a, b with
    -- If either is true, the expression is true.
    | some true, _ => some true
    | _, some true => some true
    -- If both are false, the expression is false.
    | some false, some false => some false
    -- One or both are unknown -- the result is unknown.
    | _, _ => none
  not := fun a =>
    match a with
    | some v => some (!v)
    | none => none

/-- The pop-and-fold loop inside the All and Any arms of eval: pop count
values, folding each into the accumulator with op. A pop from an empty
stack is the unwrap panic branch, modelled as none; on success the folded
result and the remaining stack are returned. -/
def foldPops {T : Type} (op : T → T → T) : Nat → T → List T → Option (T × List T)
  | 0, result, stack => some (result, stack)
  | count + 1, result, stack =>
    match stack with
    | [] => none
    | r :: rest => foldPops op count (op result r) rest

/-- The node loop of Expression::eval from src/expr/mod.rs, processing the
postfix sequence left to right against the value stack (head = top of
stack). The third state component logs, in call order, each resolved
predicate passed to eval_predicate, making the FnMut closure's observable
invocation sequence explicit; the dbg wrappers in the source are
value-identities and are not modelled. A none marks a panicking unwrap
(empty-stack pop, or a missing span in to_pred). -/
def evalNodes {T : Type} [Logic T] (eval_predicate : Predicate → T)
    (original : String) :
    List ExprNode → List T → List Predicate → Option (List T × List Predicate)
  | [], result_stack, log => some (result_stack, log)
  | node :: rest, result_stack, log =>
    match node with
    | .Predicate pred =>
      match pred.to_pred original with
      | some p =>
        evalNodes eval_predicate original rest
          (eval_predicate p :: result_stack) (log ++ [p])
      | none => none
    | .Fn (.All count) =>
      -- all() with a comma separated list of configuration predicates.
      match foldPops Logic.and count Logic.top result_stack with
      | some (result, stack) =>
        evalNodes eval_predicate original rest (result :: stack) log
      | none => none
    | .Fn (.Any count) =>
      -- any() with a comma separated list of configuration predicates.
      match foldPops Logic.or count Logic.bottom result_stack with
      | some (result, stack) =>
        evalNodes eval_predicate original rest (result :: stack) log
      | none => none
    | .Fn .Not =>
      -- not() with a configuration predicate.
      match result_stack with
      | r :: stack =>
        evalNodes eval_predicate original rest (Logic.not r :: stack) log
      | [] => none

/-- Expression::eval from src/expr/mod.rs: run the node loop from an empty
stack and return the final pop. The final pop of an empty stack is the
last unwrap's panic branch, modelled as none. -/
def Expression.eval {T : Type} [Logic T] (self : Expression)
    (eval_predicate : Predicate → T) : Option T :=
  match evalNodes eval_predicate self.original self.expr [] [] with
  | some (result_stack, _) =>
    match result_stack with
    | r :: _ => some r
    | [] => none
  | none => none

/-! ## The parser's output, modelled from the spec

The parser and lexer sources are not given. Per the spec (§4.3), the parser
is a recursive-descent consumer of the grammar

  expr := not(expr) | all(expr, ...) | any(expr, ...) | predicate

that appends to a shared postfix buffer: a predicate production appends one
classified-predicate node; a function production first emits all of its
operand sub-expressions depth-first, left to right, then appends its own
combinator node carrying the operand count. An Expression produced by a
successful parse therefore stores exactly the emission of some grammar
tree. -/

/-- Modelled from the spec: a tree of the expression grammar (§4.3), the
shape a successful parse recognises before postfix emission. -/
inductive Ast where
  | pred (p : InnerPredicate)
  | not (a : Ast)
  | all (xs : List Ast)
  | any (xs : List Ast)

mutual

/-- Modelled from the spec: the postfix buffer a parse of this tree appends
(§4.3): operands depth-first left to right, then the combinator node with
its operand count. -/
def emit : Ast → List ExprNode
  | .pred p => [.Predicate p]
  | .not a => emit a ++ [.Fn .Not]
  | .all xs => emitList xs ++ [.Fn (.All xs.length)]
  | .any xs => emitList xs ++ [.Fn (.Any xs.length)]

/-- The concatenated emission of a comma-separated operand list, left to
right. -/
def emitList : List Ast → List ExprNode
  | [] => []
  | a :: rest => emit a ++ emitList rest

end

mutual

/-- The atomic predicate occurrences of a grammar tree, in left-to-right
source order. -/
def innerPreds : Ast → List InnerPredicate
  | .pred p => [p]
  | .not a => innerPreds a
  | .all xs => innerPredsList xs
  | .any xs => innerPredsList xs

/-- The atomic predicate occurrences of an operand list, left to right. -/
def innerPredsList : List Ast → List InnerPredicate
  | [] => []
  | a :: rest => innerPreds a ++ innerPredsList rest

end

/-- The resolved predicates of a grammar tree, in left-to-right source
order (dropping any whose resolution panics; under the parser's invariant
none do). -/
def resolvedPreds (original : String) (a : Ast) : List Predicate :=
  (innerPreds a).filterMap fun p => p.to_pred original

/-- The resolved predicates of an operand list, left to right. -/
def resolvedPredsList (original : String) (xs : List Ast) : List Predicate :=
  (innerPredsList xs).filterMap fun p => p.to_pred original

/-! ## Stack-machine lemmas -/

/-- Popping exactly as many values as were pushed: the fold over a stack
prefix of the right length always succeeds and leaves the rest of the
stack untouched. -/
theorem foldPops_exact {T : Type} (op : T → T → T) :
    ∀ (ts : List T) (init : T) (stack : List T),
      ∃ v, foldPops op ts.length init (ts ++ stack) = some (v, stack)
  | [], init, stack => ⟨init, rfl⟩
  | r :: ts, init, stack => by
    obtain ⟨v, hv⟩ := foldPops_exact op ts (op init r) stack
    exact ⟨v, by simpa [foldPops] using hv⟩

mutual

/-- The generalized machine invariant for a parsed sub-expression: running
its emission, from any stack and any call log and followed by any leftover
program, succeeds, pushes exactly one value, and appends exactly its
resolved predicates (in source order) to the call log. -/
theorem evalNodes_emit {T : Type} [Logic T] (f : Predicate → T) (orig : String)
    (a : Ast) (hwf : ∀ p ∈ innerPreds a, (p.to_pred orig).isSome)
    (rest : List ExprNode) (stack : List T) (log : List Predicate) :
    ∃ t, evalNodes f orig (emit a ++ rest) stack log
      = evalNodes f orig rest (t :: stack) (log ++ resolvedPreds orig a) := by
  match a with
  | .pred p =>
    have hp : (p.to_pred orig).isSome := hwf p (by simp [innerPreds])
    obtain ⟨q, hq⟩ := Option.isSome_iff_exists.mp hp
    exact ⟨f q, by simp [emit, evalNodes, hq, resolvedPreds, innerPreds]⟩
  | .not a1 =>
    have hwf1 : ∀ p ∈ innerPreds a1, (p.to_pred orig).isSome := by
      intro p hp; exact hwf p (by simpa [innerPreds] using hp)
    obtain ⟨t, ht⟩ := evalNodes_emit f orig a1 hwf1 (.Fn .Not :: rest) stack log
    refine ⟨Logic.not t, ?_⟩
    rw [emit, List.append_assoc, List.singleton_append, ht]
    simp [evalNodes, resolvedPreds, innerPreds]
  | .all xs =>
    have hwf1 : ∀ p ∈ innerPredsList xs, (p.to_pred orig).isSome := by
      intro p hp; exact hwf p (by simpa [innerPreds] using hp)
    obtain ⟨ts, hlen, hts⟩ :=
      evalNodes_emitList f orig xs hwf1 (.Fn (.All xs.length) :: rest) stack log
    obtain ⟨v, hv⟩ := foldPops_exact (Logic.and (T := T)) ts Logic.top stack
    refine ⟨v, ?_⟩
    rw [emit, List.append_assoc, List.singleton_append, hts]
    rw [evalNodes, ← hlen, hv]
    simp [resolvedPreds, innerPreds, resolvedPredsList]
  | .any xs =>
    have hwf1 : ∀ p ∈ innerPredsList xs, (p.to_pred orig).isSome := by
      intro p hp; exact hwf p (by simpa [innerPreds] using hp)
    obtain ⟨ts, hlen, hts⟩ :=
      evalNodes_emitList f orig xs hwf1 (.Fn (.Any xs.length) :: rest) stack log
    obtain ⟨v, hv⟩ := foldPops_exact (Logic.or (T := T)) ts Logic.bottom stack
    refine ⟨v, ?_⟩
    rw [emit, List.append_assoc, List.singleton_append, hts]
    rw [evalNodes, ← hlen, hv]
    simp [resolvedPreds, innerPreds, resolvedPredsList]

/-- The generalized machine invariant for a parsed operand list: running
its emission pushes exactly one value per operand (so the combinator node
that follows it pops exactly what was pushed) and appends the operands'
resolved predicates, left to right, to the call log. -/
theorem evalNodes_emitList {T : Type} [Logic T] (f : Predicate → T)
    (orig : String) (xs : List Ast)
    (hwf : ∀ p ∈ innerPredsList xs, (p.to_pred orig).isSome)
    (rest : List ExprNode) (stack : List T) (log : List Predicate) :
    ∃ ts : List T, ts.length = xs.length ∧
      evalNodes f orig (emitList xs ++ rest) stack log
        = evalNodes f orig rest (ts ++ stack)
            (log ++ resolvedPredsList orig xs) := by
  match xs with
  | [] =>
    exact ⟨[], rfl, by simp [emitList, resolvedPredsList, innerPredsList]⟩
  | a :: xs1 =>
    have hwfa : ∀ p ∈ innerPreds a, (p.to_pred orig).isSome := by
      intro p hp; exact hwf p (by simp [innerPredsList, hp])
    have hwfxs : ∀ p ∈ innerPredsList xs1, (p.to_pred orig).isSome := by
      intro p hp; exact hwf p (by simp [innerPredsList, hp])
    obtain ⟨t, ht⟩ := evalNodes_emit f orig a hwfa (emitList xs1 ++ rest) stack log
    obtain ⟨ts, hlen, hts⟩ :=
      evalNodes_emitList f orig xs1 hwfxs rest (t :: stack)
        (log ++ resolvedPreds orig a)
    refine ⟨ts ++ [t], by simp [hlen], ?_⟩
    rw [emitList, List.append_assoc, ht, hts]
    simp [resolvedPredsList, innerPredsList, resolvedPreds,
      List.filterMap_append, List.append_assoc]

end

/-- filterMap drops nothing when the function succeeds on every element. -/
theorem length_filterMap_of_isSome {α β : Type} (g : α → Option β) :
    ∀ l : List α, (∀ x ∈ l, (g x).isSome) → (l.filterMap g).length = l.length
  | [], _ => rfl
  | x :: l, h => by
    obtain ⟨y, hy⟩ := Option.isSome_iff_exists.mp (h x (by simp))
    simp [List.filterMap_cons, hy,
      length_filterMap_of_isSome g l fun z hz => h z (by simp [hz])]

/-- The predicate sequence as the spec words it (§4.4): scan the postfix
sequence left to right, yield one resolved value per classified-predicate
node, and skip combinator nodes (and, in this embedding, any node whose
resolution would panic; under the parser's invariant none do). -/
def predicatesSpec (nodes : List ExprNode) (original : String) : List Predicate :=
  match nodes with
  | [] => []
  | .Fn _ :: rest => predicatesSpec rest original
  | .Predicate p :: rest =>
    match p.to_pred original with
    | some q => q :: predicatesSpec rest original
    | none => predicatesSpec rest original

/-- Whether a node's resolution succeeds: true for combinator nodes and for
predicate nodes whose spans resolve (the parser's invariant). -/
def nodeResolves (orig : String) : ExprNode → Bool
  | .Predicate p => (p.to_pred orig).isSome
  | .Fn _ => true

/-- When every predicate node resolves, the scan yields exactly one value
per predicate node. -/
theorem length_scan (orig : String) :
    ∀ nodes : List ExprNode, (∀ n ∈ nodes, nodeResolves orig n) →
      (nodes.filterMap fun item =>
        match item with
        | .Predicate pred => pred.to_pred orig
        | _ => none).length
      = nodes.countP fun n =>
          match n with | .Predicate _ => true | _ => false
  | [], _ => rfl
  | .Fn f :: rest, h => by
    simp [List.filterMap_cons, List.countP_cons,
      length_scan orig rest fun n hn => h n (by simp [hn])]
  | .Predicate p :: rest, h => by
    have hp : (p.to_pred orig).isSome := by
      simpa [nodeResolves] using h (.Predicate p) (by simp)
    obtain ⟨q, hq⟩ := Option.isSome_iff_exists.mp hp
    simp [List.filterMap_cons, List.countP_cons, hq,
      length_scan orig rest fun n hn => h n (by simp [hn])]

/-- Either scan of the node list agrees with the other. -/
theorem filterMap_eq_predicatesSpec (orig : String) :
    ∀ nodes : List ExprNode,
      (nodes.filterMap fun item =>
        match item with
        | .Predicate pred => pred.to_pred orig
        | _ => none) = predicatesSpec nodes orig
  | [] => rfl
  | .Fn f :: rest => by
    simp [List.filterMap_cons, predicatesSpec, filterMap_eq_predicatesSpec orig rest]
  | .Predicate p :: rest => by
    cases hq : p.to_pred orig <;>
      simp [List.filterMap_cons, predicatesSpec, hq,
        filterMap_eq_predicatesSpec orig rest]

/-! ## Sample data for the concrete witnesses -/

/-- A sample parsed tree: all(not(test), feature = "std") over the sample
original text. -/
def sampleAst : Ast := .all [.not (.pred .Test), .pred (.Feature ⟨0, 3⟩)]

/-- The sample original text referenced by sampleAst's span. -/
def sampleOriginal : String := "std"

/-- A sample target description with every optional field absent. -/
def sampleBareTarget : TargetInfo :=
  { arch := ⟨"x86_64"⟩, endian := .little, env := none, family := none,
    os := none, pointer_width := 64, vendor := none }

/-! ## The claims -/

/-- C1: for every Expression produced by a successful parse (modelled as
the postfix emission of a grammar tree whose predicate spans resolve), eval
performs a single forward pass in which every stack pop — for Not, All(n)
and Any(n) nodes and for the final result — succeeds: the machine runs to
completion, exactly one value remains on the stack, and that value is
returned, so the unwrap calls in eval are unreachable failure branches. -/
theorem eval_parsed_one_value {T : Type} [Logic T] (f : Predicate → T)
    (orig : String) (a : Ast)
    (hwf : ∀ p ∈ innerPreds a, (p.to_pred orig).isSome) :
    ∃ t log, evalNodes f orig (emit a) [] [] = some ([t], log)
      ∧ Expression.eval ⟨emit a, orig⟩ f = some t := by
  obtain ⟨t, ht⟩ := evalNodes_emit f orig a hwf [] [] []
  have hrun : evalNodes f orig (emit a) [] []
      = some ([t], resolvedPreds orig a) := by
    simpa [evalNodes] using ht
  exact ⟨t, resolvedPreds orig a, hrun, by simp [Expression.eval, hrun]⟩

/-- Witness for C1: a concrete parsed tree, evaluated in boolean logic with
a concrete predicate function, runs to a singleton stack and returns its
value. -/
theorem eval_parsed_one_value_witness :
    (∀ p ∈ innerPreds sampleAst, (p.to_pred sampleOriginal).isSome) ∧
    ∃ t log,
      evalNodes (fun _ => true) sampleOriginal (emit sampleAst) [] []
        = some ([t], log)
      ∧ Expression.eval ⟨emit sampleAst, sampleOriginal⟩ (fun _ => true)
        = some t :=
  ⟨by decide, eval_parsed_one_value (fun _ => true) sampleOriginal sampleAst
    (by decide)⟩

/-- C2: for every parsed expression, predicate function and Logic instance,
eval invokes the predicate function exactly once per atomic predicate
occurrence in the source, in left-to-right source order (the machine's call
log is exactly the source-order resolved predicate list, whose length is
the number of occurrences), and the evaluation is a total pure function of
the expression and the predicate function, so repeated calls yield the same
single defined value. -/
theorem eval_calls_in_source_order {T : Type} [Logic T] (f : Predicate → T)
    (orig : String) (a : Ast)
    (hwf : ∀ p ∈ innerPreds a, (p.to_pred orig).isSome) :
    ∃ t, evalNodes f orig (emit a) [] [] = some ([t], resolvedPreds orig a)
      ∧ (resolvedPreds orig a).length = (innerPreds a).length
      ∧ Expression.eval ⟨emit a, orig⟩ f = some t := by
  obtain ⟨t, ht⟩ := evalNodes_emit f orig a hwf [] [] []
  have hrun : evalNodes f orig (emit a) [] []
      = some ([t], resolvedPreds orig a) := by
    simpa [evalNodes] using ht
  refine ⟨t, hrun, ?_, by simp [Expression.eval, hrun]⟩
  unfold resolvedPreds
  exact length_filterMap_of_isSome (fun p => p.to_pred orig) (innerPreds a) hwf

/-- Witness for C2: on the concrete sample expression the call log is
exactly the two source predicates, in source order. -/
theorem eval_calls_in_source_order_witness :
    (∀ p ∈ innerPreds sampleAst, (p.to_pred sampleOriginal).isSome) ∧
    ∃ t, evalNodes (fun _ => some true) sampleOriginal (emit sampleAst) [] []
        = some ([t], resolvedPreds sampleOriginal sampleAst)
      ∧ (resolvedPreds sampleOriginal sampleAst).length
        = (innerPreds sampleAst).length
      ∧ Expression.eval ⟨emit sampleAst, sampleOriginal⟩
          (fun _ => (some true : Option Bool)) = some t :=
  ⟨by decide, eval_calls_in_source_order (fun _ => some true) sampleOriginal
    sampleAst (by decide)⟩

/-- C3: for every Logic instance and predicate function, an All(0) node
pushes top and an Any(0) node pushes bottom onto any stack; in particular
the parsed expressions all() and any() evaluate to top and bottom,
independent of the predicate function. -/
theorem all0_top_any0_bottom {T : Type} [Logic T] (f : Predicate → T)
    (orig : String) (stack : List T) (log : List Predicate) :
    evalNodes f orig [.Fn (.All 0)] stack log
        = some ((Logic.top : T) :: stack, log)
    ∧ evalNodes f orig [.Fn (.Any 0)] stack log
        = some ((Logic.bottom : T) :: stack, log)
    ∧ Expression.eval ⟨emit (.all []), orig⟩ f = some (Logic.top : T)
    ∧ Expression.eval ⟨emit (.any []), orig⟩ f = some (Logic.bottom : T) := by
  refine ⟨?_, ?_, ?_, ?_⟩ <;>
    simp [evalNodes, foldPops, Expression.eval, emit, emitList]

/-- C4: the Option Bool Logic instance implements Kleene three-valued
logic exactly — AND is false if either operand is false, true iff both are
true, unknown otherwise; OR is true if either operand is true, false iff
both are false, unknown otherwise; NOT swaps the two truth values and
fixes unknown; top is true and bottom is false. -/
theorem option_bool_logic_kleene :
    (Logic.top : Option Bool) = some true
    ∧ (Logic.bottom : Option Bool) = some false
    ∧ (∀ a b : Option Bool,
        (Logic.and a b = some false ↔ a = some false ∨ b = some false)
        ∧ (Logic.and a b = some true ↔ a = some true ∧ b = some true)
        ∧ (Logic.and a b = none ↔
            ¬(a = some false ∨ b = some false)
            ∧ ¬(a = some true ∧ b = some true))
        ∧ (Logic.or a b = some true ↔ a = some true ∨ b = some true)
        ∧ (Logic.or a b = some false ↔ a = some false ∧ b = some false)
        ∧ (Logic.or a b = none ↔
            ¬(a = some true ∨ b = some true)
            ∧ ¬(a = some false ∧ b = some false)))
    ∧ Logic.not (some true) = some false
    ∧ Logic.not (some false) = some true
    ∧ Logic.not (none : Option Bool) = none := by
  decide

/-- C5: Expression::predicates scans the stored postfix sequence left to
right and yields exactly one resolved predicate per classified-predicate
node and nothing for combinator nodes, in source order: it equals the
spec's left-to-right scan, and its length is the number of predicate nodes.
(The embedding is pure, so each call is a fresh read-only traversal by
construction.) -/
theorem predicates_scan (e : Expression)
    (hwf : ∀ n ∈ e.expr, nodeResolves e.original n) :
    e.predicates = predicatesSpec e.expr e.original
    ∧ e.predicates.length
        = (e.expr.countP fun n =>
            match n with | .Predicate _ => true | _ => false) := by
  exact ⟨filterMap_eq_predicatesSpec e.original e.expr,
    length_scan e.original e.expr hwf⟩

/-- Witness for C5: the predicate iterator of a concrete three-node
expression yields its two predicates in order. -/
theorem predicates_scan_witness :
    (∀ n ∈ (Expression.mk (emit sampleAst) sampleOriginal).expr,
      nodeResolves sampleOriginal n) ∧
    ((Expression.mk (emit sampleAst) sampleOriginal).predicates
        = predicatesSpec (emit sampleAst) sampleOriginal
    ∧ (Expression.mk (emit sampleAst) sampleOriginal).predicates.length
        = ((emit sampleAst).countP fun n =>
            match n with | .Predicate _ => true | _ => false)) :=
  ⟨by decide, predicates_scan ⟨emit sampleAst, sampleOriginal⟩ (by decide)⟩

/-- C6: TargetPredicate::matches is exact equality against the
corresponding field of the target description for every variant, with
exactly one exception: an Env predicate matches either an equal present
environment, or — only when its string is empty — an absent environment;
a non-empty Env predicate requires the environment to be present and
equal. -/
theorem matches_exact_equality (t : TargetInfo) :
    (∀ a, (TargetPredicate.Arch a).matches t = true ↔ a = t.arch)
    ∧ (∀ e, (TargetPredicate.Endian e).matches t = true ↔ e = t.endian)
    ∧ (∀ w, (TargetPredicate.PointerWidth w).matches t = true
        ↔ w = t.pointer_width)
    ∧ (∀ fam, (TargetPredicate.Family fam).matches t = true
        ↔ t.family = some fam)
    ∧ (∀ o, (TargetPredicate.Os o).matches t = true ↔ t.os = some o)
    ∧ (∀ v, (TargetPredicate.Vendor v).matches t = true ↔ t.vendor = some v)
    ∧ (∀ env, (TargetPredicate.Env env).matches t = true
        ↔ (t.env = some env ∨ (t.env = none ∧ env.s = ""))) := by
  rcases t with ⟨a0, e0, envO, famO, osO, pw0, venO⟩
  refine ⟨?_, ?_, ?_, ?_, ?_, ?_, ?_⟩ <;> intro x
  · exact beq_iff_eq
  · exact beq_iff_eq
  · exact beq_iff_eq
  · rw [show (TargetPredicate.Family x).matches ⟨a0, e0, envO, famO, osO, pw0, venO⟩
      = (some x == famO) from rfl, beq_iff_eq]
    exact eq_comm
  · rw [show (TargetPredicate.Os x).matches ⟨a0, e0, envO, famO, osO, pw0, venO⟩
      = (some x == osO) from rfl, beq_iff_eq]
    exact eq_comm
  · rw [show (TargetPredicate.Vendor x).matches ⟨a0, e0, envO, famO, osO, pw0, venO⟩
      = (some x == venO) from rfl, beq_iff_eq]
    exact eq_comm
  · cases envO with
    | none =>
      rw [show (TargetPredicate.Env x).matches ⟨a0, e0, none, famO, osO, pw0, venO⟩
        = (x.s == "") from rfl]
      simp
    | some e =>
      rw [show (TargetPredicate.Env x).matches ⟨a0, e0, some e, famO, osO, pw0, venO⟩
        = (x == e) from rfl, beq_iff_eq]
      simp [eq_comm]

/-- The environment arm of matches_target reads only the triple's
environment field, so the other fields can be canonicalised. -/
theorem matches_target_env_canon (a : Lexicon.Architecture)
    (v : Lexicon.Vendor) (o : Lexicon.OperatingSystem)
    (e0 : Lexicon.Environment) (env : Env) :
    (TargetPredicate.Env env).matches_target ⟨a, v, o, e0⟩
      = (TargetPredicate.Env env).matches_target ⟨.Unknown, .Unknown, .Unknown, e0⟩ :=
  rfl

/-- C7: in matches_target, an environment predicate with value gnu matches
exactly the alternate environment variants whose name begins with gnu; an
empty environment predicate matches only the Unknown variant; every other
name that parses matches only its exactly-parsed variant; and an
unparsable name is a non-match rather than an error. -/
theorem matches_target_env_rules (t : Lexicon.Triple) :
    ((TargetPredicate.Env ⟨"gnu"⟩).matches_target t
        = ("gnu".toList.isPrefixOf (Lexicon.Environment.name t.environment).toList))
    ∧ ((TargetPredicate.Env ⟨""⟩).matches_target t
        = (t.environment == .Unknown))
    ∧ (∀ s v, s ≠ "gnu" → Lexicon.parseEnvironment s = some v →
        (TargetPredicate.Env ⟨s⟩).matches_target t = (t.environment == v))
    ∧ (∀ s, s ≠ "" → Lexicon.parseEnvironment s = none →
        (TargetPredicate.Env ⟨s⟩).matches_target t = false) := by
  refine ⟨?_, ?_, ?_, ?_⟩
  · rcases t with ⟨a, v, o, envv⟩
    rw [matches_target_env_canon a v o envv ⟨"gnu"⟩]
    dsimp only
    cases envv <;> decide
  · rcases t with ⟨a, v, o, envv⟩
    rw [matches_target_env_canon a v o envv ⟨""⟩]
    dsimp only
    cases envv <;> decide
  · intro s v hg hp
    have hs : s ≠ "" := by
      rintro rfl
      rw [show Lexicon.parseEnvironment "" = none from by decide] at hp
      exact Option.noConfusion hp
    have hsE : s.isEmpty = false := by
      rw [Bool.eq_false_iff]
      simp only [Ne, String.isEmpty_iff]
      exact hs
    simp [TargetPredicate.matches_target, hsE, hp, hg]
  · intro s hs hp
    have hsE : s.isEmpty = false := by
      rw [Bool.eq_false_iff]
      simp only [Ne, String.isEmpty_iff]
      exact hs
    simp [TargetPredicate.matches_target, hsE, hp]

/-- Witness for C7: the musl predicate matches only the exactly-parsed Musl
variant, and an unrecognized environment name is a non-match. -/
theorem matches_target_env_rules_witness :
    Lexicon.parseEnvironment "musl" = some .Musl
    ∧ (TargetPredicate.Env ⟨"musl"⟩).matches_target
        ⟨.X86_64, .Unknown, .Linux, .Musl⟩ = true
    ∧ Lexicon.parseEnvironment "uclibc" = none
    ∧ (TargetPredicate.Env ⟨"uclibc"⟩).matches_target
        ⟨.X86_64, .Unknown, .Linux, .Musl⟩ = false := by
  refine ⟨by decide, ?_, by decide, ?_⟩
  · have h := (matches_target_env_rules
      ⟨.X86_64, .Unknown, .Linux, .Musl⟩).2.2.1 "musl" .Musl
      (by decide) (by decide)
    simpa using h
  · exact (matches_target_env_rules
      ⟨.X86_64, .Unknown, .Linux, .Musl⟩).2.2.2 "uclibc" (by decide) (by decide)

/-- C8: in matches_target, a PointerWidth(w) predicate against a target
whose alternate environment is Gnux32 matches iff w = 32, regardless of
the architecture's natural width; otherwise the width is queried from the
architecture and compared for equality, and a failed width query is a
non-match. -/
theorem matches_target_pointer_width_rules (w : Nat) (t : Lexicon.Triple) :
    (t.environment = .Gnux32 →
      (TargetPredicate.PointerWidth w).matches_target t = (w == 32))
    ∧ (t.environment ≠ .Gnux32 →
        ∀ bits, t.architecture.pointer_width = some bits →
          (TargetPredicate.PointerWidth w).matches_target t = (w == bits))
    ∧ (t.environment ≠ .Gnux32 → t.architecture.pointer_width = none →
        (TargetPredicate.PointerWidth w).matches_target t = false) := by
  refine ⟨?_, ?_, ?_⟩
  · intro h
    simp [TargetPredicate.matches_target, h]
  · intro h bits hb
    simp [TargetPredicate.matches_target, Lexicon.Triple.pointer_width,
      h, hb, bne_iff_ne]
  · intro h hb
    simp [TargetPredicate.matches_target, Lexicon.Triple.pointer_width,
      h, hb, bne_iff_ne]

/-- Witness for C8: a 32-bit pointer-width predicate matches an
x86_64-gnux32 triple even though the architecture's natural width query
reports 64, and a width predicate against the unknown architecture (whose
width query fails) is a non-match. -/
theorem matches_target_pointer_width_rules_witness :
    (⟨.X86_64, .Unknown, .Linux, .Gnux32⟩ : Lexicon.Triple).environment
      = .Gnux32
    ∧ Lexicon.Architecture.pointer_width .X86_64 = some 64
    ∧ (TargetPredicate.PointerWidth 32).matches_target
        ⟨.X86_64, .Unknown, .Linux, .Gnux32⟩ = true
    ∧ Lexicon.Architecture.pointer_width .Unknown = none
    ∧ (TargetPredicate.PointerWidth 32).matches_target
        ⟨.Unknown, .Unknown, .Linux, .Musl⟩ = false := by
  refine ⟨rfl, rfl, ?_, rfl, ?_⟩
  · have h := (matches_target_pointer_width_rules 32
      ⟨.X86_64, .Unknown, .Linux, .Gnux32⟩).1 rfl
    simpa using h
  · exact (matches_target_pointer_width_rules 32
      ⟨.Unknown, .Unknown, .Linux, .Musl⟩).2.2 (by decide) rfl

/-- C9: in matches_target, an Os predicate whose name fails to parse as an
alternate operating system matches exactly in two fallback cases — the
name macos against the Darwin OS, and the name android against the Linux
OS combined with the Android environment — and otherwise is false;
matches_target is a total boolean function, so an unrecognized name never
errors. -/
theorem matches_target_os_fallbacks (s : String) (t : Lexicon.Triple)
    (hp : Lexicon.parseOperatingSystem s = none) :
    (TargetPredicate.Os ⟨s⟩).matches_target t = true ↔
      ((s = "macos" ∧ t.operating_system = .Darwin)
       ∨ (s = "android" ∧ t.operating_system = .Linux
            ∧ t.environment = .Android)) := by
  simp only [TargetPredicate.matches_target, hp]
  split
  case isTrue h =>
    simp only [Bool.and_eq_true, beq_iff_eq] at h
    simp [h.1, h.2]
  case isFalse h =>
    simp only [Bool.and_eq_true, beq_iff_eq] at h ⊢
    constructor
    · intro ha
      exact Or.inr ⟨ha.1.1, ha.1.2, ha.2⟩
    · rintro (hm | ha)
      · exact absurd hm h
      · exact ⟨⟨ha.1, ha.2.1⟩, ha.2.2⟩

/-- Witness for C9: macos does not parse as an alternate OS name, yet it
matches a Darwin triple, and an entirely unknown name is a non-match. -/
theorem matches_target_os_fallbacks_witness :
    Lexicon.parseOperatingSystem "macos" = none
    ∧ (TargetPredicate.Os ⟨"macos"⟩).matches_target
        ⟨.X86_64, .Apple, .Darwin, .Unknown⟩ = true
    ∧ (TargetPredicate.Os ⟨"beos"⟩).matches_target
        ⟨.X86_64, .Apple, .Darwin, .Unknown⟩ = false := by
  refine ⟨by decide, ?_, ?_⟩
  · exact (matches_target_os_fallbacks "macos"
      ⟨.X86_64, .Apple, .Darwin, .Unknown⟩ (by decide)).mpr (Or.inl ⟨rfl, rfl⟩)
  · have h := matches_target_os_fallbacks "beos"
      ⟨.X86_64, .Apple, .Darwin, .Unknown⟩ (by decide)
    simp only [Bool.not_eq_true] at h ⊢
    rcases hb : (TargetPredicate.Os ⟨"beos"⟩).matches_target
        ⟨.X86_64, .Apple, .Darwin, .Unknown⟩ with _ | _
    · rfl
    · exfalso
      rcases h.mp hb with hm | ha
      · exact absurd hm.1 (by decide)
      · exact absurd ha.1 (by decide)

/-- C10: for TargetPredicate::matches, an Os, Vendor or Family predicate
never matches a target whose corresponding optional field is absent; the
empty-string-matches-absent behaviour exists only for the Env variant,
which against an absent environment matches exactly when its string is
empty. -/
theorem matches_absent_optional_fields (t : TargetInfo) :
    (t.os = none → ∀ o, (TargetPredicate.Os o).matches t = false)
    ∧ (t.vendor = none → ∀ v, (TargetPredicate.Vendor v).matches t = false)
    ∧ (t.family = none → ∀ fam, (TargetPredicate.Family fam).matches t = false)
    ∧ (t.env = none → ∀ env, (TargetPredicate.Env env).matches t
        = (env.s == "")) := by
  refine ⟨?_, ?_, ?_, ?_⟩ <;> intro h x <;>
    simp [TargetPredicate.matches, h]

/-- Witness for C10: against a target with every optional field absent, the
Family(unix), Os(linux) and Vendor(pc) predicates fail while Env("")
matches. -/
theorem matches_absent_optional_fields_witness :
    sampleBareTarget.os = none ∧ sampleBareTarget.vendor = none
    ∧ sampleBareTarget.family = none ∧ sampleBareTarget.env = none
    ∧ (TargetPredicate.Os ⟨"linux"⟩).matches sampleBareTarget = false
    ∧ (TargetPredicate.Vendor ⟨"pc"⟩).matches sampleBareTarget = false
    ∧ (TargetPredicate.Family .unix).matches sampleBareTarget = false
    ∧ (TargetPredicate.Env ⟨""⟩).matches sampleBareTarget = true := by
  refine ⟨rfl, rfl, rfl, rfl, ?_, ?_, ?_, ?_⟩
  · exact (matches_absent_optional_fields sampleBareTarget).1 rfl ⟨"linux"⟩
  · exact (matches_absent_optional_fields sampleBareTarget).2.1 rfl ⟨"pc"⟩
  · exact (matches_absent_optional_fields sampleBareTarget).2.2.1 rfl .unix
  · have h := (matches_absent_optional_fields sampleBareTarget).2.2.2 rfl ⟨""⟩
    simpa using h

end CfgExpr
